import Mathlib

/-
Verification of the SPMD distributed-array decomposition and communication
layer of the sc21 benchmark harness (samples/distributed/explicit/sc21_bench.py).

Machine floats are modelled by exact rationals: every initializer value is an
integer-valued modulus divided by a small integer, so all arithmetic performed
by the initializers and by the index bookkeeping is exact in float64 and the
rational model is value-faithful.  The one place where IEEE semantics diverge
from field arithmetic (division by a zero norm in the validation metric) is
modelled explicitly with a NaN/Inf-aware result type.
-/

namespace Sc21

/-! ## Process grid table

`grid` in the source is a Python dict from total process count to the pair
(Px, Py); a lookup of an unlisted count raises KeyError.  We model the dict
as a partial map into `Option`. -/

def grid (n : ℕ) : Option (ℕ × ℕ) :=
  if n = 1 then some (1, 1)
  else if n = 2 then some (1, 2)
  else if n = 4 then some (2, 2)
  else if n = 8 then some (2, 4)
  else if n = 16 then some (4, 4)
  else if n = 32 then some (4, 8)
  else if n = 64 then some (8, 8)
  else if n = 128 then some (8, 16)
  else if n = 256 then some (16, 16)
  else none

/-- The gemm / k2mm / k3mm drivers patch the looked-up grid:
`if Px < Py: Px, Py = Py, Px` ("Tmp fix for gemm and non-square grids"). -/
def mmGrid (n : ℕ) : Option (ℕ × ℕ) :=
  match grid n with
  | none => none
  | some (Px, Py) => if Px < Py then some (Py, Px) else some (Px, Py)

/-! ## Rank and coordinate maps

Every 2-D driver computes `pi = rank // Py`, `pj = rank % Py`; the inverse
map `pi * Py + pj` appears in the neighbor-rank formulas of jacobi_2d
(`nn = (pi-1)*Py + pj`, `nw = pi*Py + (pj-1)`, ...). -/

def procCoord (Py rank : ℕ) : ℕ × ℕ := (rank / Py, rank % Py)

def coordRank (Py pi pj : ℕ) : ℕ := pi * Py + pj

/-- `l2g(idx, pidx, bsize) = idx + pidx * bsize` from the source. -/
def l2g (idx pidx bsize : ℕ) : ℕ := idx + pidx * bsize

/-! ## Initializers (values as exact rationals)

Each `*_shmem_init` fills arrays by a pure function of the global index;
each `*_distr_init` fills the local block by the same function evaluated at
`l2g` of the local index. -/

/-- atax_shmem_init: `A[i,j] = ((i + j) % N) / (5 * M)`. -/
def ataxShmemA (M N : ℕ) (i j : ℕ) : ℚ := (((i + j) % N : ℕ) : ℚ) / ((5 * M : ℕ) : ℚ)

/-- atax_shmem_init: `x[i] = 1 + i / N`. -/
def ataxShmemX (N : ℕ) (i : ℕ) : ℚ := 1 + (i : ℚ) / (N : ℚ)

/-- atax_distr_init: `A[i,j] = ((l2g(i,pi,lM) + l2g(j,pj,lN)) % N) / (5 * M)`. -/
def ataxDistrA (M N lM lN : ℕ) (pi pj i j : ℕ) : ℚ :=
  (((l2g i pi lM + l2g j pj lN) % N : ℕ) : ℚ) / ((5 * M : ℕ) : ℚ)

/-- atax_distr_init: `x[i] = 1 + l2g(i,pj,lN) / N`. -/
def ataxDistrX (N lN : ℕ) (pj i : ℕ) : ℚ := 1 + ((l2g i pj lN : ℕ) : ℚ) / (N : ℚ)

/-- k3mm_shmem_init: `B[i,j] = ((i * (j + 1) + 2) % NJ) / (5 * NJ)`. -/
def k3mmShmemB (NJ : ℕ) (i j : ℕ) : ℚ :=
  (((i * (j + 1) + 2) % NJ : ℕ) : ℚ) / ((5 * NJ : ℕ) : ℚ)

/-- k3mm_distr_init: `B[i,j] = ((l2g(i,pi,lNKb) * (l2g(j,pj,lNJ) + 1) + 2) % NJ) / (5 * NJ)`,
allocated with shape `(lNKa, lNJ)` although the row stride used is `lNKb`. -/
def k3mmDistrB (NJ lNJ lNKb : ℕ) (pi pj i j : ℕ) : ℚ :=
  (((l2g i pi lNKb * (l2g j pj lNJ + 1) + 2) % NJ : ℕ) : ℚ) / ((5 * NJ : ℕ) : ℚ)

/-- doitgen_distr_init: `A[i,j,k] = ((l2g(i,p,lR) * j + k) % NP) / NP`. -/
def doitgenDistrA (NP lR : ℕ) (p : ℕ) (i j k : ℕ) : ℚ :=
  (((l2g i p lR * j + k) % NP : ℕ) : ℚ) / ((NP : ℕ) : ℚ)

/-- doitgen_distr_init: `C4[i,j] = (i * j % NP) / NP`. -/
def doitgenC4 (NP : ℕ) (i j : ℕ) : ℚ := (((i * j) % NP : ℕ) : ℚ) / ((NP : ℕ) : ℚ)

/-! ## Driver setup pipelines (error behavior)

The only failure an unsupported process count can produce is the KeyError of
the dict lookup `Px, Py = grid[size]`; we name it `UnsupportedProcessCount`.
The source has no divisibility check of any kind: local sizes are plain floor
divisions (`lM = M // Px`, ...). -/

inductive BenchError where
  | UnsupportedProcessCount
deriving DecidableEq

structure AtaxState where
  Px : ℕ
  Py : ℕ
  pi : ℕ
  pj : ℕ
  lM : ℕ
  lN : ℕ
  lNx : ℕ
  lMy : ℕ
  A : ℕ → ℕ → ℚ
  x : ℕ → ℚ

/-- The prelude of the `atax` driver: grid lookup (which raises on an
unsupported count before anything else happens), coordinate computation,
floor-divided local sizes, then buffer initialization. -/
def ataxSetup (size rank M N : ℕ) : Except BenchError AtaxState :=
  match grid size with
  | none => Except.error BenchError.UnsupportedProcessCount
  | some (Px, Py) =>
    Except.ok
      { Px := Px, Py := Py
        pi := rank / Py, pj := rank % Py
        lM := M / Px, lN := N / Py, lNx := N / Py, lMy := M / Py
        A := fun i j => ataxDistrA M N (M / Px) (N / Py) (rank / Py) (rank % Py) i j
        x := fun i => ataxDistrX N (N / Py) (rank % Py) i }

structure DoitgenState where
  lR : ℕ
  A : ℕ → ℕ → ℕ → ℚ
  C4 : ℕ → ℕ → ℚ

/-- The prelude of the `doitgen` driver: it never consults the grid table —
`lR = NR // size` uses the raw process count — so no count is rejected. -/
def doitgenSetup (size NR NQ NP rank : ℕ) : Except BenchError DoitgenState :=
  Except.ok
    { lR := NR / size
      A := fun i j k => doitgenDistrA NP (NR / size) rank i j k
      C4 := fun i j => doitgenC4 NP i j }

/-! ## Validation metric

`relerr(ref, val) = np.linalg.norm(ref-val) / np.linalg.norm(ref)` and the
pass flag is `error < 1e-12`.  The L2 norm is the square root of the sum of
squares; we carry the radicand exactly: a finite float result `√q` is encoded
as `sqrtVal q` (with `q ≥ 0` for every reachable result), and the IEEE
special cases of the division are explicit — `0.0/0.0` is NaN and `x/0.0`
with `x > 0` is Inf.  Since `√q < 1e-12 ↔ q < 1e-24` for `q ≥ 0`, the pass
flag on `sqrtVal q` is `q < 1/10^24`; NaN and Inf compare false under `<`. -/

def normSq (l : List ℚ) : ℚ := (l.map (fun x => x * x)).sum

inductive NpRelerr where
  | nan
  | inf
  | sqrtVal (q : ℚ)
deriving DecidableEq

/-- `relerr(ref, val)` with IEEE division semantics at a zero denominator. -/
def relerr (ref val : List ℚ) : NpRelerr :=
  let d := normSq (List.zipWith (fun a b => a - b) ref val)
  let r := normSq ref
  if r = 0 then (if d = 0 then NpRelerr.nan else NpRelerr.inf)
  else NpRelerr.sqrtVal (d / r)

/-- The printed pass flag `error < 1e-12` (encoded on the squared scale;
`nan < 1e-12` and `inf < 1e-12` are both false in IEEE comparison). -/
def validationPass : NpRelerr → Bool
  | NpRelerr.nan => false
  | NpRelerr.inf => false
  | NpRelerr.sqrtVal q => decide (q < 1 / 10 ^ 24)

/-! ## Benchmark timing harness

`timeit.repeat(stmt, setup="comm.Barrier()", repeat=10, number=1)` produces a
list of 10 raw wall-clock times, each the duration of a single call preceded
by a barrier.  We abstract the measured durations by an oracle `f` giving the
raw seconds of the i-th repetition. `raw_time = np.median(raw_time_list)` and
rank 0 alone prints `time_to_ms(raw_time)` where
`time_to_ms(raw) = int(round(raw * 1000))` (Python `round`: nearest integer,
ties to even). -/

def rawTimeList (f : ℕ → ℚ) (rep : ℕ) : List ℚ := (List.range rep).map f

/-- `np.median`: sort, then the middle element, or the average of the two
middle elements when the length is even. -/
def npMedian (l : List ℚ) : ℚ :=
  let s := List.insertionSort (fun a b => a ≤ b) l
  let n := l.length
  if n % 2 = 1 then s.getD (n / 2) 0
  else (s.getD (n / 2 - 1) 0 + s.getD (n / 2) 0) / 2

/-- The arithmetic mean, for contrast with the median. -/
def listMean (l : List ℚ) : ℚ := l.sum / (l.length : ℚ)

/-- Python `round` on an exact value: nearest integer, ties to even. -/
def pyRound (q : ℚ) : ℤ :=
  let f := ⌊q⌋
  let r := q - (f : ℚ)
  if r < 1 / 2 then f
  else if 1 / 2 < r then f + 1
  else if f % 2 = 0 then f else f + 1

/-- `time_to_ms(raw) = int(round(raw * 1000))`. -/
def time_to_ms (raw : ℚ) : ℤ := pyRound (raw * 1000)

/-- One timed benchmark phase: 10 single-call repetitions, median, printed
only on rank 0 (`none` models "prints nothing"). -/
def benchReport (rank : ℕ) (f : ℕ → ℚ) : Option ℤ :=
  if rank = 0 then some (time_to_ms (npMedian (rawTimeList f 10))) else none

/-! ## Gather reassembly

Rank-ordered `comm.Gather` fills a staging array of shape `(Px, Py, lM, lN)`;
the driver then runs `np.transpose(C, (0, 2, 1, 3)).reshape(NI, NJ)`.  Both
steps are modelled on index functions: the transpose permutes axes, and the
reshape re-decomposes the row-major linear offset of `(r, s)` in shape
`(Px*lM, Py*lN)` against the logical shape `(Px, lM, Py, lN)`. -/

def transpose0213 (staged : ℕ → ℕ → ℕ → ℕ → ℚ) : ℕ → ℕ → ℕ → ℕ → ℚ :=
  fun a b c d => staged a c b d

/-- Row-major reshape of a 4-D array of logical shape `(_, lM, Py, lN)` to a
2-D array whose rows have length `Py * lN`. -/
def reshapeTo2d (Py lM lN : ℕ) (t : ℕ → ℕ → ℕ → ℕ → ℚ) : ℕ → ℕ → ℚ :=
  fun r s =>
    t ((r * (Py * lN) + s) / lN / Py / lM)
      ((r * (Py * lN) + s) / lN / Py % lM)
      ((r * (Py * lN) + s) / lN % Py)
      ((r * (Py * lN) + s) % lN)

/-- `np.transpose(C, (0, 2, 1, 3)).reshape(Px * lM, Py * lN)` applied to the
rank-ordered staging array. -/
def gatherGlobal (Py lM lN : ℕ) (staged : ℕ → ℕ → ℕ → ℕ → ℚ) : ℕ → ℕ → ℚ :=
  reshapeTo2d Py lM lN (transpose0213 staged)

/-! ## One halo-exchange round of the 1-D stencil (jacobi_1d)

Each rank `p` owns a buffer of length `lR + 2` (ghost cells at positions `0`
and `lR + 1`, interior at `1 .. lR`).  The driver sets `nw = rank - 1`
(`PROC_NULL` at rank 0) and `ne = rank + 1` (`PROC_NULL` at rank `P - 1`).
One round posts
  `Isend(A[1],  nw, tag 3)`, `Isend(A[-2], ne, tag 2)`,
  `Irecv(A[0],  nw, tag 2)`, `Irecv(A[-1], ne, tag 3)`
and waits for all four.  Messages are modelled explicitly as
(src, dst, tag, payload) records; an Isend/Irecv addressed to `PROC_NULL` is
a no-op, hence posts/matches no message.  Note `A[-2]` is buffer index `lR`
and `A[-1]` is buffer index `lR + 1`. -/

structure Msg where
  src : ℕ
  dst : ℕ
  tag : ℕ
  val : ℚ

/-- West neighbor: `nw = rank - 1`, `PROC_NULL` at rank 0. -/
def nwOf (p : ℕ) : Option ℕ := if p = 0 then none else some (p - 1)

/-- East neighbor: `ne = rank + 1`, `PROC_NULL` at rank `P - 1`. -/
def neOf (P p : ℕ) : Option ℕ := if p = P - 1 then none else some (p + 1)

/-- The messages rank `q` posts in one round: `A[1]` west with tag 3 and
`A[-2]` east with tag 2, each skipped at a `PROC_NULL` neighbor. -/
def sendsFrom (P lR : ℕ) (bufs : ℕ → ℕ → ℚ) (q : ℕ) : List Msg :=
  (if q = 0 then [] else [⟨q, q - 1, 3, bufs q 1⟩]) ++
  (if q = P - 1 then [] else [⟨q, q + 1, 2, bufs q lR⟩])

/-- All messages in flight in one round, over all `P` ranks. -/
def allSends (P lR : ℕ) (bufs : ℕ → ℕ → ℚ) : List Msg :=
  ((List.range P).map (sendsFrom P lR bufs)).flatten

/-- The payload delivered to a posted receive `(src, dst, tag)`. -/
def recvVal (msgs : List Msg) (src dst tag : ℕ) : Option ℚ :=
  (msgs.find? (fun m => decide (m.src = src ∧ m.dst = dst ∧ m.tag = tag))).map Msg.val

/-- Buffer contents after the `Waitall` of one round: ghost cell 0 receives
from `nw` with tag 2, ghost cell `lR + 1` receives from `ne` with tag 3, and
the interior is untouched.  A receive whose neighbor is `PROC_NULL` leaves
the cell unchanged. -/
def exchangeRound (P lR : ℕ) (bufs : ℕ → ℕ → ℚ) : ℕ → ℕ → ℚ :=
  fun p i =>
    if i = 0 then
      match nwOf p with
      | none => bufs p 0
      | some s => (recvVal (allSends P lR bufs) s p 2).getD (bufs p 0)
    else if i = lR + 1 then
      match neOf P p with
      | none => bufs p (lR + 1)
      | some s => (recvVal (allSends P lR bufs) s p 3).getD (bufs p (lR + 1))
    else bufs p i

/-- jacobi_1d_distr_init: buffers start as zeros, then the interior
`A[1:-1]` is filled with `(l2g(i, p, lN) + 2) / N`; the ghost cells keep 0. -/
def jacobi1dInitA (N lN : ℕ) (p : ℕ) : ℕ → ℚ :=
  fun i => if 1 ≤ i ∧ i ≤ lN then ((l2g (i - 1) p lN : ℕ) + 2 : ℚ) / (N : ℚ) else 0

/-! ## Helper lemmas -/

/-- Splitting off the least mixed-radix digit: quotient and remainder of
`r + b * q` by `b` when `r < b`. -/
theorem splitIndex (b q r : ℕ) (h : r < b) :
    (r + b * q) % b = r ∧ (r + b * q) / b = q := by
  have hb : 0 < b := lt_of_le_of_lt (Nat.zero_le r) h
  constructor
  · rw [Nat.add_mul_mod_self_left]
    exact Nat.mod_eq_of_lt h
  · rw [Nat.add_mul_div_left _ _ hb, Nat.div_eq_of_lt h, Nat.zero_add]

/-! ## Theorems -/

/-- Exhaustive enumeration of the grid table. -/
theorem grid_cases (n : ℕ) (v : ℕ × ℕ) (h : grid n = some v) :
    (n = 1 ∧ v = (1, 1)) ∨ (n = 2 ∧ v = (1, 2)) ∨ (n = 4 ∧ v = (2, 2)) ∨
    (n = 8 ∧ v = (2, 4)) ∨ (n = 16 ∧ v = (4, 4)) ∨ (n = 32 ∧ v = (4, 8)) ∨
    (n = 64 ∧ v = (8, 8)) ∨ (n = 128 ∧ v = (8, 16)) ∨
    (n = 256 ∧ v = (16, 16)) := by
  unfold grid at h
  split_ifs at h with h1 h2 h3 h4 h5 h6 h7 h8 h9
  all_goals injection h with h'
  all_goals subst h'
  all_goals simp_all

/-- Claim C4: the static grid table maps each supported total process count
`n ∈ {1, 2, 4, 8, 16, 32, 64, 128, 256}` to a pair of positive integers with
`Px * Py = n`, and no other count is in the table. -/
theorem grid_table_sound (n : ℕ) :
    (∀ Px Py, grid n = some (Px, Py) → 0 < Px ∧ 0 < Py ∧ Px * Py = n) ∧
    ((grid n).isSome = true ↔
      n = 1 ∨ n = 2 ∨ n = 4 ∨ n = 8 ∨ n = 16 ∨ n = 32 ∨ n = 64 ∨
      n = 128 ∨ n = 256) := by
  constructor
  · intro Px Py h
    rcases grid_cases n (Px, Py) h with
      h' | h' | h' | h' | h' | h' | h' | h' | h' <;>
      (obtain ⟨rfl, h''⟩ := h'
       injection h'' with ha hb
       subst ha
       subst hb
       decide)
  · constructor
    · intro hs
      obtain ⟨v, hv⟩ := Option.isSome_iff_exists.mp hs
      rcases grid_cases n v hv with
        h' | h' | h' | h' | h' | h' | h' | h' | h' <;>
        (obtain ⟨rfl, _⟩ := h'; simp)
    · intro hor
      rcases hor with rfl | rfl | rfl | rfl | rfl | rfl | rfl | rfl | rfl <;> rfl

/-- Witness for C4 at the table entry `8 ↦ (2, 4)`. -/
theorem grid_table_sound_witness : 0 < 2 ∧ 0 < 4 ∧ 2 * 4 = 8 :=
  (grid_table_sound 8).1 2 4 rfl

/-- Claim C5: `(pi, pj) = (rank / Py, rank % Py)` lies in `[0,Px) × [0,Py)`
and `pi * Py + pj = rank` whenever `rank < Px * Py`; conversely a coordinate
in range maps to rank `pi * Py + pj` and back to itself. -/
theorem rank_coord_bijection (Px Py rank pi pj : ℕ)
    (hPy : 0 < Py) (hrank : rank < Px * Py) (hpj : pj < Py) :
    (procCoord Py rank).1 < Px ∧ (procCoord Py rank).2 < Py ∧
    coordRank Py (procCoord Py rank).1 (procCoord Py rank).2 = rank ∧
    procCoord Py (coordRank Py pi pj) = (pi, pj) := by
  refine ⟨?_, Nat.mod_lt _ hPy, ?_, ?_⟩
  · exact (Nat.div_lt_iff_lt_mul hPy).mpr hrank
  · show rank / Py * Py + rank % Py = rank
    rw [Nat.mul_comm]
    exact Nat.div_add_mod rank Py
  · have hco : coordRank Py pi pj = pj + Py * pi := by
      unfold coordRank; ring
    have hs := splitIndex Py pi pj hpj
    unfold procCoord
    rw [hco, hs.1, hs.2]

/-- Witness for C5 at `Px = 2`, `Py = 4`, `rank = 5`, `(pi, pj) = (1, 3)`. -/
theorem rank_coord_bijection_witness :
    (procCoord 4 5).1 < 2 ∧ (procCoord 4 5).2 < 4 ∧
    coordRank 4 (procCoord 4 5).1 (procCoord 4 5).2 = 5 ∧
    procCoord 4 (coordRank 4 1 3) = (1, 3) :=
  rank_coord_bijection 2 4 5 1 3 (by decide) (by decide) (by decide)

/-- Claim C10: gemm, k2mm and k3mm swap the looked-up grid exactly when
`Px < Py` — which happens exactly for counts 2, 8, 32 and 128 — so the grid
those kernels actually use is the transpose of the table entry there, equals
the table entry elsewhere, and always satisfies `Px ≥ Py`. -/
theorem mm_grid_transposition (n Px Py : ℕ) (h : grid n = some (Px, Py)) :
    (Px < Py ↔ n = 2 ∨ n = 8 ∨ n = 32 ∨ n = 128) ∧
    (Px < Py → mmGrid n = some (Py, Px)) ∧
    (¬ Px < Py → mmGrid n = some (Px, Py)) ∧
    (∃ a b, mmGrid n = some (a, b) ∧ b ≤ a ∧ a * b = n) := by
  rcases grid_cases n (Px, Py) h with
    h' | h' | h' | h' | h' | h' | h' | h' | h' <;>
    (obtain ⟨rfl, h''⟩ := h'
     injection h'' with ha hb
     subst ha
     subst hb
     refine ⟨by decide, fun hlt => ?_, fun hlt => ?_, ⟨_, _, rfl, by decide, by decide⟩⟩
     · first | decide | exact absurd hlt (by decide)
     · first | decide | exact absurd (by decide) hlt)

/-- Witness for C10 at count 8 (table entry `(2, 4)`, used as `(4, 2)`). -/
theorem mm_grid_transposition_witness :
    ((2 : ℕ) < 4 ↔ (8 : ℕ) = 2 ∨ (8 : ℕ) = 8 ∨ (8 : ℕ) = 32 ∨ (8 : ℕ) = 128) ∧
    ((2 : ℕ) < 4 → mmGrid 8 = some (4, 2)) ∧
    (¬ (2 : ℕ) < 4 → mmGrid 8 = some (2, 4)) ∧
    (∃ a b, mmGrid 8 = some (a, b) ∧ b ≤ a ∧ a * b = 8) :=
  mm_grid_transposition 8 2 4 rfl

/-- Claim C6 (amended): in an entry point that performs the grid lookup
(atax is representative — bicg, gemm, gemver, gesummv, k2mm, k3mm, mvt,
jacobi_2d and heat_3d are identical in this respect), an unsupported total
process count makes the lookup fail before any local buffer is initialized:
the setup pipeline returns the lookup error and never reaches the
allocation step. -/
theorem atax_unsupported_count_fails_fast (size rank M N : ℕ)
    (h : grid size = none) :
    ataxSetup size rank M N = Except.error BenchError.UnsupportedProcessCount := by
  unfold ataxSetup
  rw [h]

/-- Witness for the amended C6 at the unsupported count 3. -/
theorem atax_unsupported_count_fails_fast_witness :
    ataxSetup 3 0 8 8 = Except.error BenchError.UnsupportedProcessCount :=
  atax_unsupported_count_fails_fast 3 0 8 8 rfl

/-- Counterexample to C6 as stated: `doitgen` is a benchmark entry point, 3
is not in the grid table, yet its setup never raises — it computes
`lR = NR // size` from the raw count and allocates its buffers. -/
theorem doitgen_count_3_no_error :
    grid 3 = none ∧
    doitgenSetup 3 24 8 8 0 ≠ Except.error BenchError.UnsupportedProcessCount := by
  refine ⟨rfl, fun h => ?_⟩
  have hsome : (doitgenSetup 3 24 8 8 0).toOption.isSome = true := rfl
  rw [h] at hsome
  simp [Except.toOption] at hsome

/-- Claim C7 (amended): no divisibility check exists; for every supported
process count the setup always succeeds, with local sizes computed by
silently truncating floor division (`lM = M // Px`, `lN = N // Py`), and no
error of any kind — in particular no `NonDivisiblePartition` — is surfaced
for a non-divisible global dimension. -/
theorem atax_silent_floor_division (size rank M N Px Py : ℕ)
    (h : grid size = some (Px, Py)) :
    ∀ e : BenchError,
      ataxSetup size rank M N ≠ Except.error e ∧
      (ataxSetup size rank M N).toOption.map AtaxState.lM = some (M / Px) ∧
      (ataxSetup size rank M N).toOption.map AtaxState.lN = some (N / Py) := by
  intro e
  unfold ataxSetup
  rw [h]
  exact ⟨fun hc => Except.noConfusion hc, rfl, rfl⟩

/-- Witness for the amended C7: count 2 (grid `(1, 2)`), `M = 5`, `N = 3`
(with `N` not divisible by `Py = 2`): the setup succeeds and truncates
`lN` to `3 / 2 = 1`. -/
theorem atax_silent_floor_division_witness :
    ataxSetup 2 0 5 3 ≠ Except.error BenchError.UnsupportedProcessCount ∧
    (ataxSetup 2 0 5 3).toOption.map AtaxState.lM = some (5 / 1) ∧
    (ataxSetup 2 0 5 3).toOption.map AtaxState.lN = some (3 / 2) :=
  atax_silent_floor_division 2 0 5 3 1 2 rfl BenchError.UnsupportedProcessCount

/-- Counterexample to C7 as stated: with process count 2 the grid is
`(1, 2)` and `N = 3` does not divide by `Py = 2`, yet the atax setup
completes with no error before the kernel would be invoked (the local size
is silently floored to 1). -/
theorem atax_non_divisible_no_error :
    3 % 2 ≠ 0 ∧ grid 2 = some (1, 2) ∧
    (ataxSetup 2 0 5 3).toOption.map AtaxState.lN = some 1 :=
  ⟨by decide, rfl, rfl⟩

/-- Claim C2 evaluated at its failing input (code bug): `k3mm_distr_init`
allocates `B` with shape `(lNKa, lNJ)` but fills it with row stride `lNKb`
(while `k3mm_distr` declares `B: dc.float64[lNKb, lNJ]` and the analogous
`gemm`/`k2mm` initializers consistently use `lNKb` for both).  With
process count 2 — grid `(1, 2)`, swapped by the mm drivers to
`Px = 2, Py = 1` — and `NK = 4`, `NJ = 5`: `lNKa = NK / Py = 4`,
`lNKb = NK / Px = 2`, `lNJ = NJ / Py = 5`.  Rank `(pi, pj) = (1, 0)`'s
block element `(0, 0)` is `4/25`, while the restriction of the
single-process initializer at global row `pi * lNKa + 0 = 4` is `1/25`:
the distributed blocks are not the restriction of the single-process
initializer, so a grid-(1,1) run cannot reproduce their concatenation. -/
theorem k3mm_B_init_mismatch :
    k3mmDistrB 5 5 2 1 0 0 0 = 4 / 25 ∧
    k3mmShmemB 5 (1 * 4 + 0) (0 * 5 + 0) = 1 / 25 ∧
    k3mmDistrB 5 5 2 1 0 0 0 ≠ k3mmShmemB 5 (1 * 4 + 0) (0 * 5 + 0) := by
  have h1 : k3mmDistrB 5 5 2 1 0 0 0 = 4 / 25 := by
    unfold k3mmDistrB l2g
    norm_num
  have h2 : k3mmShmemB 5 (1 * 4 + 0) (0 * 5 + 0) = 1 / 25 := by
    unfold k3mmShmemB
    norm_num
  refine ⟨h1, h2, ?_⟩
  rw [h1, h2]
  norm_num

/-- Supporting fact for the k3mm finding: where the initializer is
internally consistent the restriction property does hold — the atax
distributed block and vector are exactly the single-process initializer
evaluated at the owned global indices, and a grid-(1,1) run with
`lM = M`, `lN = N` reproduces the single-process arrays. -/
theorem atax_init_restriction (M N lM lN pi pj i j : ℕ) :
    ataxDistrA M N lM lN pi pj i j = ataxShmemA M N (pi * lM + i) (pj * lN + j) ∧
    ataxDistrX N lN pj i = ataxShmemX N (pj * lN + i) ∧
    ataxDistrA M N M N 0 0 i j = ataxShmemA M N i j ∧
    ataxDistrX N N 0 i = ataxShmemX N i := by
  refine ⟨?_, ?_, ?_, ?_⟩
  · unfold ataxDistrA ataxShmemA
    have h : l2g i pi lM + l2g j pj lN = pi * lM + i + (pj * lN + j) := by
      unfold l2g; ring
    rw [h]
  · unfold ataxDistrX ataxShmemX
    have h : l2g i pj lN = pj * lN + i := by
      unfold l2g; ring
    rw [h]
  · unfold ataxDistrA ataxShmemA
    have h : l2g i 0 M + l2g j 0 N = i + j := by
      unfold l2g; ring
    rw [h]
  · unfold ataxDistrX ataxShmemX
    have h : l2g i 0 N = i := by
      unfold l2g; ring
    rw [h]

/-- Claim C8 (amended): for two all-zero arrays of any length, the division
`norm(ref - val) / norm(ref)` is the IEEE `0.0 / 0.0`, so the computed
relative error is NaN — not 0.0 — and since `nan < 1e-12` is false the case
is classified as a validation failure. -/
theorem relerr_zero_arrays (n : ℕ) :
    relerr (List.replicate n 0) (List.replicate n 0) = NpRelerr.nan ∧
    validationPass (relerr (List.replicate n 0) (List.replicate n 0)) = false := by
  have hz : List.zipWith (fun a b => a - b) (List.replicate n (0 : ℚ))
      (List.replicate n (0 : ℚ)) = List.replicate n (0 : ℚ) := by
    induction n with
    | zero => rfl
    | succ k ih => simp [List.replicate_succ, ih]
  have hns : normSq (List.replicate n (0 : ℚ)) = 0 := by
    induction n with
    | zero => rfl
    | succ k ih => simpa [List.replicate_succ, normSq] using ih
  have hmain : relerr (List.replicate n 0) (List.replicate n 0) = NpRelerr.nan := by
    unfold relerr
    rw [hz, hns]
    simp
  exact ⟨hmain, by rw [hmain]; rfl⟩

/-- Counterexample to C8 as stated: on two concrete zero arrays the metric
is NaN, not the finite value 0.0, and the pass flag is false. -/
theorem relerr_zero_zero_not_pass :
    relerr [0, 0, 0, 0] [0, 0, 0, 0] = NpRelerr.nan ∧
    relerr [0, 0, 0, 0] [0, 0, 0, 0] ≠ NpRelerr.sqrtVal 0 ∧
    validationPass (relerr [0, 0, 0, 0] [0, 0, 0, 0]) = false := by
  have h : relerr [0, 0, 0, 0] [0, 0, 0, 0] = NpRelerr.nan := by
    simp [relerr, normSq]
  refine ⟨h, ?_, by rw [h]; rfl⟩
  rw [h]
  intro hc
  exact NpRelerr.noConfusion hc

/-- Claim C9: the timed phase performs exactly 10 single-call repetitions;
the value printed — only by rank 0 — is `int(round(median * 1000))` of the
median of the raw times; and the median genuinely differs from the mean
(on the raw list `[100, 0, ..., 0]` the median is 0 while the mean is 10),
so the reported statistic is the median, not the mean. -/
theorem bench_reporting (f : ℕ → ℚ) (rank : ℕ) :
    (rawTimeList f 10).length = 10 ∧
    benchReport 0 f = some (time_to_ms (npMedian (rawTimeList f 10))) ∧
    (rank ≠ 0 → benchReport rank f = none) ∧
    npMedian (rawTimeList (fun i => if i = 0 then 100 else 0) 10) = 0 ∧
    listMean (rawTimeList (fun i => if i = 0 then 100 else 0) 10) = 10 := by
  refine ⟨by simp [rawTimeList], rfl, fun h => by simp [benchReport, h], ?_, ?_⟩
  · norm_num [npMedian, rawTimeList, List.range_succ, List.insertionSort,
      List.orderedInsert, List.getD]
  · norm_num [listMean, rawTimeList, List.range_succ]

/-- Witness for C9: a rank other than 0 prints nothing. -/
theorem bench_reporting_witness : benchReport 5 (fun _ => 0) = none :=
  (bench_reporting (fun _ => 0) 5).2.2.1 (by decide)

/-- Claim C3: gathering in rank order into a staging array of shape
`(Px, Py, lM, lN)`, transposing axes `(0, 2, 1, 3)` and reshaping to
`(Px * lM, Py * lN)` places block `(pi, pj)`'s element `(i, j)` at global
position `(pi * lM + i, pj * lN + j)` — grid axis 0 aligns with block
axis 0. -/
theorem gather_reassembly (Px Py lM lN : ℕ) (staged : ℕ → ℕ → ℕ → ℕ → ℚ)
    (pi pj i j : ℕ) (hpi : pi < Px) (hpj : pj < Py) (hi : i < lM) (hj : j < lN) :
    gatherGlobal Py lM lN staged (pi * lM + i) (pj * lN + j) = staged pi pj i j := by
  have hL : (pi * lM + i) * (Py * lN) + (pj * lN + j)
      = j + lN * (pj + Py * (i + lM * pi)) := by ring
  have h1 := splitIndex lN (pj + Py * (i + lM * pi)) j hj
  have h2 := splitIndex Py (i + lM * pi) pj hpj
  have h3 := splitIndex lM pi i hi
  unfold gatherGlobal reshapeTo2d transpose0213
  rw [hL, h1.1, h1.2, h2.1, h2.2, h3.1, h3.2]

/-- Witness for C3 on a concrete `2 × 3` grid of `2 × 2` blocks, at block
`(1, 2)`, element `(1, 1)`. -/
theorem gather_reassembly_witness :
    gatherGlobal 3 2 2 (fun a b c d => (a * 1000 + b * 100 + c * 10 + d : ℚ))
        (1 * 2 + 1) (2 * 2 + 1)
      = (fun a b c d => (a * 1000 + b * 100 + c * 10 + d : ℚ)) 1 2 1 1 :=
  gather_reassembly 2 3 2 2 _ 1 2 1 1 (by decide) (by decide) (by decide) (by decide)

/-- `List.find?` returns the unique element satisfying the predicate. -/
theorem find_unique (p : Msg → Bool) (l : List Msg) (m : Msg)
    (hmem : m ∈ l) (hpm : p m = true)
    (huniq : ∀ x ∈ l, p x = true → x = m) :
    l.find? p = some m := by
  induction l with
  | nil => cases hmem
  | cons a t ih =>
    by_cases ha : p a = true
    · have : a = m := huniq a (List.mem_cons_self a t) ha
      subst this
      simp [List.find?_cons, ha]
    · have hm : m ∈ t := by
        rcases List.mem_cons.mp hmem with h | h
        · subst h; exact absurd hpm ha
        · exact h
      have ht : t.find? p = some m :=
        ih hm (fun x hx hpx => huniq x (List.mem_cons_of_mem a hx) hpx)
      rw [List.find?_cons_of_neg _ (by simpa using ha), ht]

/-- Membership in one rank's posted sends. -/
theorem mem_sendsFrom (P lR : ℕ) (bufs : ℕ → ℕ → ℚ) (q : ℕ) (m : Msg) :
    m ∈ sendsFrom P lR bufs q ↔
      ((q ≠ 0 ∧ m = ⟨q, q - 1, 3, bufs q 1⟩) ∨
       (q ≠ P - 1 ∧ m = ⟨q, q + 1, 2, bufs q lR⟩)) := by
  unfold sendsFrom
  by_cases h0 : q = 0 <;> by_cases hP : q = P - 1 <;> simp [h0, hP]

/-- Membership in the round's full message pool. -/
theorem mem_allSends (P lR : ℕ) (bufs : ℕ → ℕ → ℚ) (m : Msg) :
    m ∈ allSends P lR bufs ↔ ∃ q, q < P ∧ m ∈ sendsFrom P lR bufs q := by
  unfold allSends
  simp [List.mem_flatten, List.mem_map, List.mem_range]

/-- The receive posted for the west ghost cell (source `p - 1`, tag 2)
matches exactly rank `p - 1`'s eastward send of its element `A[lR]`. -/
theorem recv_west (P lR : ℕ) (bufs : ℕ → ℕ → ℚ) (p : ℕ)
    (h0 : 0 < p) (hP : p < P) :
    recvVal (allSends P lR bufs) (p - 1) p 2 = some (bufs (p - 1) lR) := by
  unfold recvVal
  rw [find_unique _ _ (⟨p - 1, p, 2, bufs (p - 1) lR⟩ : Msg)]
  · rfl
  · rw [mem_allSends]
    refine ⟨p - 1, by omega, ?_⟩
    rw [mem_sendsFrom]
    right
    refine ⟨by omega, ?_⟩
    have h1 : p - 1 + 1 = p := by omega
    rw [h1]
  · simp
  · intro x hx hpx
    rcases (mem_allSends P lR bufs x).mp hx with ⟨q, hq, hmem⟩
    rcases (mem_sendsFrom P lR bufs q x).mp hmem with ⟨hq0, rfl⟩ | ⟨hqP, rfl⟩
    · simp at hpx
    · simp only [decide_eq_true_eq] at hpx
      simp only [Msg.mk.injEq]
      refine ⟨by omega, by omega, by trivial, ?_⟩
      have hq1 : q = p - 1 := by omega
      rw [hq1]

/-- The receive posted for the east ghost cell (source `p + 1`, tag 3)
matches exactly rank `p + 1`'s westward send of its element `A[1]`. -/
theorem recv_east (P lR : ℕ) (bufs : ℕ → ℕ → ℚ) (p : ℕ)
    (hP : p + 1 < P) :
    recvVal (allSends P lR bufs) (p + 1) p 3 = some (bufs (p + 1) 1) := by
  unfold recvVal
  rw [find_unique _ _ (⟨p + 1, p, 3, bufs (p + 1) 1⟩ : Msg)]
  · rfl
  · rw [mem_allSends]
    refine ⟨p + 1, by omega, ?_⟩
    rw [mem_sendsFrom]
    left
    refine ⟨by omega, ?_⟩
    have h1 : p + 1 - 1 = p := by omega
    rw [h1]
  · simp
  · intro x hx hpx
    rcases (mem_allSends P lR bufs x).mp hx with ⟨q, hq, hmem⟩
    rcases (mem_sendsFrom P lR bufs q x).mp hmem with ⟨hq0, rfl⟩ | ⟨hqP, rfl⟩
    · simp only [decide_eq_true_eq] at hpx
      simp only [Msg.mk.injEq]
      refine ⟨by omega, by omega, by trivial, ?_⟩
      have hq1 : q = p + 1 := by omega
      rw [hq1]
    · simp at hpx

/-- Claim C1: after the Waitall of one post-send/post-receive round of the
1-D stencil, every rank `p < P` with a west neighbor holds, in its west
ghost cell `A[0]`, the neighbor's boundary-adjacent interior element
`A[lR]` (interior local index `lR - 1`); symmetrically the east ghost cell
`A[lR+1]` holds the east neighbor's `A[1]`; at a grid edge the ghost cell
keeps its pre-round (initialized) value; and the interior is untouched by
the exchange. -/
theorem halo_one_round (P lR : ℕ) (bufs : ℕ → ℕ → ℚ) (p : ℕ) (hP : p < P) :
    (0 < p → exchangeRound P lR bufs p 0 = bufs (p - 1) lR) ∧
    (p = 0 → exchangeRound P lR bufs p 0 = bufs p 0) ∧
    (p + 1 < P → exchangeRound P lR bufs p (lR + 1) = bufs (p + 1) 1) ∧
    (p = P - 1 → exchangeRound P lR bufs p (lR + 1) = bufs p (lR + 1)) ∧
    (∀ i, i ≠ 0 → i ≠ lR + 1 → exchangeRound P lR bufs p i = bufs p i) := by
  refine ⟨?_, ?_, ?_, ?_, ?_⟩
  · intro h0
    unfold exchangeRound
    rw [if_pos rfl]
    unfold nwOf
    rw [if_neg (by omega : ¬ p = 0)]
    show (recvVal (allSends P lR bufs) (p - 1) p 2).getD (bufs p 0) = bufs (p - 1) lR
    rw [recv_west P lR bufs p h0 hP]
    rfl
  · intro h0
    subst h0
    unfold exchangeRound nwOf
    simp
  · intro h1
    unfold exchangeRound
    rw [if_neg (by omega : ¬ lR + 1 = 0), if_pos rfl]
    unfold neOf
    rw [if_neg (by omega : ¬ p = P - 1)]
    show (recvVal (allSends P lR bufs) (p + 1) p 3).getD (bufs p (lR + 1)) = bufs (p + 1) 1
    rw [recv_east P lR bufs p h1]
    rfl
  · intro h1
    unfold exchangeRound
    rw [if_neg (by omega : ¬ lR + 1 = 0), if_pos rfl]
    unfold neOf
    rw [if_pos h1]
  · intro i hi0 hi1
    unfold exchangeRound
    rw [if_neg hi0, if_neg hi1]

/-- Witness for C1: the concrete scenario of the claim — 4 processes,
local length 4 (buffer length 6), jacobi_1d initial data with global
length 16.  After one round, process 1's left ghost `A[0]` equals process
0's `A[4]` (interior index 3, value `5/16`), and process 0's left ghost
`A[0]` keeps its initialized value (0 from `np.zeros`). -/
theorem halo_one_round_witness :
    exchangeRound 4 4 (fun p => jacobi1dInitA 16 4 p) 1 0
      = (fun p => jacobi1dInitA 16 4 p) 0 4 ∧
    exchangeRound 4 4 (fun p => jacobi1dInitA 16 4 p) 0 0
      = (fun p => jacobi1dInitA 16 4 p) 0 0 ∧
    jacobi1dInitA 16 4 0 4 = 5 / 16 ∧
    jacobi1dInitA 16 4 1 0 = 0 :=
  ⟨(halo_one_round 4 4 (fun p => jacobi1dInitA 16 4 p) 1 (by decide)).1 (by decide),
   (halo_one_round 4 4 (fun p => jacobi1dInitA 16 4 p) 0 (by decide)).2.1 rfl,
   by norm_num [jacobi1dInitA, l2g],
   by norm_num [jacobi1dInitA, l2g]⟩

end Sc21
